import Mathlib

/-!
Shallow embedding of the fileserver repository's performance-parameter
derivation engine (src/parameters.py) and hierarchical configuration merge
(src/utility.py, src/actions/merge.py), with theorems checking the
specification's claims against it.

Modelling conventions:
* Python integers are `Int` (or `Nat` where the source value is a count).
* Python exceptions are `Except PyError`.
* Python float values produced by true division are modelled as exact
  rationals, kept as an explicit numerator/denominator pair `PyFloat` so that
  all definitions evaluate by kernel reduction; `pyInt` models Python's
  `int()` truncation toward zero.
* The external probe utilities invoked via `subprocess` (hdparm -Q,
  blockdev --getbsz) are modelled as oracle functions from a device path to
  the value the probe reports.
-/

set_option autoImplicit false

namespace Fileserver

/-- Python exception classes raised by the embedded code:
`InconsistentTypeError` (src/utility.py), `InvalidRaidLevel`
(src/parameters.py), and the builtin `TypeError`, `ValueError`,
`ZeroDivisionError`. -/
inductive PyError where
  | inconsistentType
  | invalidRaidLevel
  | typeError
  | valueError
  | zeroDivision
  deriving DecidableEq, Repr

/-- Exact value of a Python float obtained by true division: an unreduced
fraction num/den. Keeping the pair unreduced keeps every definition
computable by kernel reduction. -/
structure PyFloat where
  num : Int
  den : Int
  deriving DecidableEq, Repr

/-- Python true division `a / b` on two integers (producing a float). -/
def pyDivInt (a b : Int) : PyFloat := ⟨a, b⟩

/-- Python true division on two float values. -/
def PyFloat.div (x y : PyFloat) : PyFloat := ⟨x.num * y.den, x.den * y.num⟩

/-- The rational number a PyFloat stands for. -/
def PyFloat.toRat (x : PyFloat) : ℚ := (x.num : ℚ) / (x.den : ℚ)

/-- Python `int()` applied to a float: truncation toward zero. -/
def pyInt (x : PyFloat) : Int := x.num.tdiv x.den

/-- Disk device entity (src/configuration.py Disk.DeviceGroup.Device):
a path plus its configured readahead_sectors. -/
structure DiskDevice where
  path : String
  readahead_sectors : Int
  deriving DecidableEq, Repr

/-! Constants from src/parameters.py lines 5-7. -/

def BYTES_PER_SECTOR : Int := 512
def BYTES_PER_PAGE : Int := 4096
def SECTORS_PER_PAGE : PyFloat := pyDivInt BYTES_PER_PAGE BYTES_PER_SECTOR

/-- parameters._num_data_disks: how many of the disk devices contribute to
data capacity for the raid level; unsupported levels raise InvalidRaidLevel. -/
def _num_data_disks (disk_devices : List DiskDevice) (raid_level : Int) :
    Except PyError Int :=
  if raid_level = 0 then .ok disk_devices.length
  else if raid_level = 1 then .ok 1
  else if raid_level = 5 then .ok ((disk_devices.length : Int) - 1)
  else if raid_level = 6 then .ok ((disk_devices.length : Int) - 2)
  else .error .invalidRaidLevel

/-- parameters._gcd: the Euclidean while-loop. Block sizes reported by
blockdev are naturals, so it is embedded on Nat (Python % on nonnegative
operands is Nat.mod). -/
def _gcd (a b : Nat) : Nat :=
  if b = 0 then a else _gcd b (a % b)
decreasing_by exact Nat.mod_lt _ (Nat.pos_of_ne_zero (by assumption))

/-- parameters._lcm: a * b // gcd(a, b); Python floor division on naturals
is Nat division. -/
def _lcm (a b : Nat) : Nat := a * b / _gcd a b

/-- parameters.disk_ncq_depth. The hdparm -Q subprocess call and the parse
of its queue_depth line are modelled by the probe oracle: for a device path
it yields the reported queue depth, or none when no queue_depth line is
present (such devices are skipped). The function then takes the Python min
of the collected depths, raising ValueError when none were collected. -/
def disk_ncq_depth (probe : String → Option Int) (devices : List DiskDevice) :
    Except PyError Int :=
  let depths := devices.filterMap fun d => probe d.path
  match depths.min? with
  | none => .error .valueError
  | some m => .ok m

/-- parameters.raid_chunk_size_kb: benchmark-derived chunk size per raid
level; level 1 has no chunk concept and yields Python None. -/
def raid_chunk_size_kb (raid_level : Int) : Except PyError (Option Int) :=
  if raid_level = 0 then .ok (some 512)
  else if raid_level = 1 then .ok none
  else if raid_level = 5 then .ok (some 64)
  else if raid_level = 6 then .ok (some 64)
  else .error .invalidRaidLevel

/-- parameters.raid_readahead_sectors: sum of member devices' readahead. -/
def raid_readahead_sectors (disk_devices : List DiskDevice) : Int :=
  (disk_devices.map (·.readahead_sectors)).sum

/-- parameters.raid_stripe_cache_pages:
int(average(readahead_sectors) / SECTORS_PER_PAGE). The division by
len(disk_devices) raises ZeroDivisionError on an empty list. -/
def raid_stripe_cache_pages (disk_devices : List DiskDevice) :
    Except PyError Int :=
  let sum_disk_readahead_sectors : Int :=
    (disk_devices.map (·.readahead_sectors)).sum
  if disk_devices.length = 0 then .error .zeroDivision
  else
    let average_disk_readahead_sectors : PyFloat :=
      pyDivInt sum_disk_readahead_sectors disk_devices.length
    .ok (pyInt (average_disk_readahead_sectors.div SECTORS_PER_PAGE))

/-- parameters.fs_block_size_kb. The blockdev --getbsz subprocess call is
modelled by the blockProbe oracle giving each device's block size in bytes.
functools.reduce without an initial value raises TypeError on an empty
sequence; otherwise the block sizes are folded with _lcm and the result is
int(lcm / 1024). -/
def fs_block_size_kb (blockProbe : String → Nat) (disk_devices : List DiskDevice) :
    Except PyError Int :=
  match disk_devices.map fun d => blockProbe d.path with
  | [] => .error .typeError
  | b :: bs => .ok (pyInt (pyDivInt ((bs.foldl _lcm b : Nat) : Int) 1024))

/-- parameters.fs_stride: int(raid_chunk_size_kb(raid_level) /
fs_block_size_kb(disk_devices)). Dividing Python None (level 1) by an int
raises TypeError; dividing by a zero block size raises ZeroDivisionError. -/
def fs_stride (blockProbe : String → Nat) (disk_devices : List DiskDevice)
    (raid_level : Int) : Except PyError Int :=
  (raid_chunk_size_kb raid_level).bind fun chunk =>
  (fs_block_size_kb blockProbe disk_devices).bind fun bs =>
  match chunk with
  | none => .error .typeError
  | some c =>
    if bs = 0 then .error .zeroDivision
    else .ok (pyInt (pyDivInt c bs))

/-- parameters.fs_stripe_width: int(fs_stride(...) * num_data_disks), with
num_data_disks evaluated first as in the source. -/
def fs_stripe_width (blockProbe : String → Nat) (disk_devices : List DiskDevice)
    (raid_level : Int) : Except PyError Int :=
  (_num_data_disks disk_devices raid_level).bind fun num_data_disks =>
  (fs_stride blockProbe disk_devices raid_level).bind fun s =>
  .ok (s * num_data_disks)

/-! Configuration trees and the recursive merge (src/utility.py).

A configuration node is an ordered mapping (string keys, insertion order
preserved), a sequence, or a scalar (string, int, bool or None), as loaded
from YAML. Python's two mapping classes (dict and collections.OrderedDict)
are both modelled by the single `omap` constructor, since the merge treats
their contents identically. Mappings are association lists in insertion
order; Python dictionaries never hold duplicate keys, which theorems track
through the well-formedness predicate WF. -/
inductive Node where
  | omap : List (String × Node) → Node
  | list : List Node → Node
  | str : String → Node
  | int : Int → Node
  | bool : Bool → Node
  | null : Node
  deriving Repr

/-- Keys of an association list, in order. -/
def keys (l : List (String × Node)) : List String := l.map Prod.fst

/-- Python's `k in result` / `result[k]` read: the value stored at k. -/
def lookupFirst (k : String) : List (String × Node) → Option Node
  | [] => none
  | (k', v) :: rest => if k' = k then some v else lookupFirst k rest

/-- Python's `result[k] = v` when k is already present: replace the stored
value in place, preserving the key's position. -/
def updateFirst (k : String) (v : Node) : List (String × Node) → List (String × Node)
  | [] => []
  | (k', v') :: rest => if k' = k then (k', v) :: rest else (k', v') :: updateFirst k v rest

mutual

/-- utility.merge (src/utility.py lines 30-55). Python raises
InconsistentTypeError when type(lhs) != type(rhs); identical mapping types
recurse through _merge_dict_items into a fresh mapping, lists concatenate,
and any other identical type is replaced by rhs. No input is mutated. -/
def merge : Node → Node → Except PyError Node
  | .omap lhs, .omap rhs => (_merge_dict_items lhs rhs).map Node.omap
  | .list lhs, .list rhs => .ok (.list (lhs ++ rhs))
  | .str _, .str s => .ok (.str s)
  | .int _, .int n => .ok (.int n)
  | .bool _, .bool b => .ok (.bool b)
  | .null, .null => .ok .null
  | _, _ => .error .inconsistentType
termination_by structural _ rhs => rhs

/-- utility._merge_dict_items (src/utility.py lines 9-27). The source's
first loop copies lhs into the fresh result dict, so the embedding starts
from result = lhs; the recursion is the second loop over rhs's items: a key
already in the result has its stored value merged with rhs's value, a new
key is appended at the end. -/
def _merge_dict_items (result : List (String × Node)) :
    List (String × Node) → Except PyError (List (String × Node))
  | [] => .ok result
  | (k, v) :: rest =>
    match lookupFirst k result with
    | some old =>
      (merge old v).bind fun m => _merge_dict_items (updateFirst k m result) rest
    | none => _merge_dict_items (result ++ [(k, v)]) rest
termination_by structural rest => rest

end

/-- utility.merge_r (src/utility.py lines 58-64) as written:
`reduce(merge, rhs, initializer=lhs)`. CPython's functools.reduce accepts
its initial value only positionally and rejects keyword arguments, so every
call raises TypeError before any merging happens. -/
def merge_r (_lhs : Node) (_rhs : List Node) : Except PyError Node :=
  .error .typeError

/-- The N-document merge in Merge.do (src/actions/merge.py lines 38-44):
reduce(utility.merge, configs, collections.OrderedDict()), a left fold of
the pairwise merge starting from an empty mapping. -/
def mergeMany (configs : List Node) : Except PyError Node :=
  configs.foldlM merge (Node.omap [])

/-- Shape-class of a node in the spec's sense: mapping / sequence / scalar.
Modelled from the spec: scalars are strings, ints, bools and None. -/
def isScalar : Node → Bool
  | .omap _ => false
  | .list _ => false
  | _ => true

/-- Success/failure of an embedded Python call. -/
def exceptIsOk {α : Type} : Except PyError α → Bool
  | .ok _ => true
  | .error _ => false

mutual

/-- Modelled from the spec: the two trees present values of the same
concrete runtime type at every position the recursive merge reaches
(mapping with mapping, sequence with sequence, and scalars of the same
scalar type; positions inside sequences are never reached). -/
def mergeable : Node → Node → Bool
  | .omap lhs, .omap rhs => mergeableList lhs rhs
  | .list _, .list _ => true
  | .str _, .str _ => true
  | .int _, .int _ => true
  | .bool _, .bool _ => true
  | .null, .null => true
  | _, _ => false
termination_by structural _ rhs => rhs

/-- Companion of `mergeable` for the positions the mapping case reaches:
every rhs key that also occurs in lhs must hold mergeable values. -/
def mergeableList (lhs : List (String × Node)) : List (String × Node) → Bool
  | [] => true
  | (k, v) :: rest =>
    (match lookupFirst k lhs with
     | some old => mergeable old v
     | none => true) && mergeableList lhs rest
termination_by structural rest => rest

end

mutual

/-- Well-formedness of a configuration tree as a Python/YAML value: every
mapping anywhere in the tree has pairwise-distinct keys (Python dicts
cannot hold duplicate keys). -/
def WF : Node → Bool
  | .omap l => decide ((keys l).Nodup) && WFfields l
  | .list xs => WFelems xs
  | .str _ => true
  | .int _ => true
  | .bool _ => true
  | .null => true
termination_by structural n => n

/-- Well-formedness of every value of an association list. -/
def WFfields : List (String × Node) → Bool
  | [] => true
  | (_, v) :: rest => WF v && WFfields rest
termination_by structural l => l

/-- Well-formedness of every element of a sequence. -/
def WFelems : List Node → Bool
  | [] => true
  | v :: rest => WF v && WFelems rest
termination_by structural l => l

end

/-! Concrete fixtures used by witnesses and counterexamples. -/

/-- Four-disk fixture matching the spec's worked examples. -/
def exampleDevices : List DiskDevice :=
  [⟨"/dev/sda", 256⟩, ⟨"/dev/sdb", 256⟩, ⟨"/dev/sdc", 256⟩, ⟨"/dev/sdd", 256⟩]

/-- Block-size probe reporting 4096-byte filesystem blocks on every path. -/
def exampleBlockProbe : String → Nat := fun _ => 4096

/-- Queue-depth probe reporting the spec example's depths 32, 31, 32, 32. -/
def exampleDepthProbe : String → Option Int := fun p =>
  if p = "/dev/sdb" then some 31 else some 32

/-- Left mapping of the merge example: a scalar, a nested mapping and a
sequence. -/
def exampleLhs : List (String × Node) :=
  [("a", .int 1), ("m", .omap [("x", .int 1)]), ("l", .list [.int 1])]

/-- Right mapping of the merge example: overlaps exampleLhs on keys m and l
and adds key b. -/
def exampleRhs : List (String × Node) :=
  [("m", .omap [("y", .int 2)]), ("b", .str "s"), ("l", .list [.int 2])]

/-- Expected merge of exampleLhs with exampleRhs. -/
def exampleMerged : List (String × Node) :=
  [("a", .int 1), ("m", .omap [("x", .int 1), ("y", .int 2)]),
   ("l", .list [.int 1, .int 2]), ("b", .str "s")]

/-- Mappings whose values at the shared key k are an int and a string: both
scalars, but of different runtime types. -/
def mismatchLhs : Node := .omap [("k", .int 1)]
def mismatchRhs : Node := .omap [("k", .str "x")]

/-- Three overlapping documents exercising scalar override, nested mapping
merge and sequence concatenation for the associativity witness. -/
def assocA : Node := .omap [("k", .omap [("x", .int 1)]), ("s", .int 1)]
def assocB : Node := .omap [("k", .omap [("y", .int 2)]), ("t", .list [.int 1])]
def assocC : Node := .omap [("k", .omap [("x", .int 9)]), ("t", .list [.int 2])]

/-! General facts about the arithmetic model. -/

/-- Truncation toward zero agrees with the floor of the represented rational
when the fraction is nonnegative, as in all uses below. -/
theorem pyInt_eq_floor (x : PyFloat) (hn : 0 ≤ x.num) (hd : 0 < x.den) :
    pyInt x = ⌊x.toRat⌋ := by
  rw [pyInt, PyFloat.toRat, Int.tdiv_eq_ediv hn (le_of_lt hd)]
  rw [show x.den = ((x.den.toNat : ℕ) : Int) from (Int.toNat_of_nonneg (le_of_lt hd)).symm]
  rw [Int.cast_natCast, Rat.floor_intCast_div_natCast]

/-- The Euclidean while-loop computes Nat.gcd with its arguments swapped. -/
theorem _gcd_eq_gcd (b : Nat) : ∀ a, _gcd a b = Nat.gcd b a := by
  induction b using Nat.strong_induction_on with
  | _ b ih =>
    intro a
    unfold _gcd
    split
    · rename_i h; subst h; simp
    · rename_i h
      exact (ih (a % b) (Nat.mod_lt _ (Nat.pos_of_ne_zero h)) b).trans (Nat.gcd_rec b a).symm

theorem _lcm_self (a : Nat) : _lcm a a = a := by
  rw [_lcm, _gcd_eq_gcd, Nat.gcd_self]
  rcases Nat.eq_zero_or_pos a with h | h
  · subst h; rfl
  · exact Nat.mul_div_cancel_left a h

/-- Folding Python's binary min over a list yields an element of it. -/
theorem foldl_min_mem (xs : List Int) : ∀ a : Int, xs.foldl min a ∈ a :: xs := by
  induction xs with
  | nil => intro a; simp
  | cons x xs ih =>
    intro a
    have h := ih (min a x)
    rw [List.foldl_cons]
    rcases List.mem_cons.mp h with he | hm
    · rcases min_choice a x with hax | hax
      · rw [he, hax]; exact List.mem_cons_self _ _
      · rw [he, hax]; exact List.mem_cons.mpr (Or.inr (List.mem_cons_self _ _))
    · exact List.mem_cons.mpr (Or.inr (List.mem_cons.mpr (Or.inr hm)))

/-- Folding Python's binary min over a list bounds every element. -/
theorem foldl_min_le (xs : List Int) : ∀ a y : Int, y ∈ a :: xs → xs.foldl min a ≤ y := by
  induction xs with
  | nil =>
    intro a y hy
    simp only [List.mem_singleton] at hy
    subst hy
    exact le_of_eq rfl
  | cons x xs ih =>
    intro a y hy
    rw [List.foldl_cons]
    rcases List.mem_cons.mp hy with h1 | h2
    · rw [h1]
      exact le_trans (ih (min a x) (min a x) (List.mem_cons_self _ _)) (min_le_left _ _)
    · rcases List.mem_cons.mp h2 with h3 | h4
      · rw [h3]
        exact le_trans (ih (min a x) (min a x) (List.mem_cons_self _ _)) (min_le_right _ _)
      · exact ih (min a x) y (List.mem_cons.mpr (Or.inr h4))

/-- A map that produces only some-values is its own filterMap. -/
theorem filterMap_eq_of_map_some {α β : Type} (f : α → Option β) :
    ∀ (l : List α) (l₂ : List β), l.map f = l₂.map some → l.filterMap f = l₂ := by
  intro l
  induction l with
  | nil =>
    intro l₂ h
    cases l₂
    · rfl
    · simp at h
  | cons x xs ih =>
    intro l₂ h
    cases l₂ with
    | nil => simp at h
    | cons y ys =>
      simp only [List.map_cons, List.cons.injEq] at h
      simp [List.filterMap_cons, h.1, ih ys h.2]

/-- Evaluation of the stripe-cache arithmetic: truncating
(s / len) / SECTORS_PER_PAGE is the floor of s / len / 8 for a nonnegative
sum s and a nonzero device count. -/
theorem stripe_pages_eval (s : Int) (len : Nat) (hs : 0 ≤ s) (hlen : len ≠ 0) :
    pyInt ((pyDivInt s len).div SECTORS_PER_PAGE) = ⌊((s : ℚ) / (len : ℚ)) / 8⌋ := by
  have hlpos : (0 : Int) < (len : Int) := by exact_mod_cast Nat.pos_of_ne_zero hlen
  have hform : (pyDivInt s len).div SECTORS_PER_PAGE =
      ⟨s * 512, (len : Int) * 4096⟩ := rfl
  rw [hform, pyInt_eq_floor _ (mul_nonneg hs (by norm_num)) (mul_pos hlpos (by norm_num))]
  congr 1
  simp only [PyFloat.toRat]
  push_cast
  rw [div_div, show ((len : ℚ)) * 4096 = (len * 8) * 512 by ring,
    mul_div_mul_right _ _ (by norm_num : (512 : ℚ) ≠ 0)]

/-! Claims about the parameter derivation engine. -/

/-- C3: num_data_disks returns disk_count for level 0, 1 for level 1,
disk_count minus 1 for level 5 and disk_count minus 2 for level 6 (under
the documented disk-count preconditions), and fails with InvalidRaidLevel
for every other raid level, substituting no default. -/
theorem num_data_disks_spec (ds : List DiskDevice) (rl : Int) :
    (rl = 0 → 1 ≤ ds.length → _num_data_disks ds rl = .ok (ds.length : Int)) ∧
    (rl = 1 → 2 ≤ ds.length → _num_data_disks ds rl = .ok 1) ∧
    (rl = 5 → 2 ≤ ds.length → _num_data_disks ds rl = .ok ((ds.length : Int) - 1)) ∧
    (rl = 6 → 3 ≤ ds.length → _num_data_disks ds rl = .ok ((ds.length : Int) - 2)) ∧
    (rl ∉ ([0, 1, 5, 6] : List Int) → _num_data_disks ds rl = .error .invalidRaidLevel) := by
  refine ⟨?_, ?_, ?_, ?_, ?_⟩
  · rintro rfl -; simp [_num_data_disks]
  · rintro rfl -; simp [_num_data_disks]
  · rintro rfl -; simp [_num_data_disks]
  · rintro rfl -; simp [_num_data_disks]
  · intro h
    simp only [List.mem_cons, List.not_mem_nil, or_false, not_or] at h
    obtain ⟨h0, h1, h5, h6⟩ := h
    simp [_num_data_disks, h0, h1, h5, h6]

/-- Witness for C3 at the spec's example: 4 disks, raid level 5 give 3 data
disks. -/
theorem num_data_disks_witness :
    (5 : Int) = 5 ∧ 2 ≤ exampleDevices.length ∧
    _num_data_disks exampleDevices 5 = .ok ((exampleDevices.length : Int) - 1) ∧
    _num_data_disks exampleDevices 5 = .ok 3 :=
  ⟨rfl, by decide, (num_data_disks_spec exampleDevices 5).2.2.1 rfl (by decide), rfl⟩

/-- C4: for a non-empty device list with nonnegative readahead values,
raid_stripe_cache_pages is the floor of the average readahead divided by
SECTORS_PER_PAGE, and SECTORS_PER_PAGE is 4096 / 512 = 8. -/
theorem raid_stripe_cache_pages_spec (ds : List DiskDevice) (hne : ds ≠ [])
    (hnn : ∀ d ∈ ds, 0 ≤ d.readahead_sectors) :
    SECTORS_PER_PAGE.toRat = 8 ∧
    raid_stripe_cache_pages ds =
      .ok ⌊((((ds.map (·.readahead_sectors)).sum : Int) : ℚ) / (ds.length : ℚ)) / 8⌋ := by
  have hlen : ds.length ≠ 0 := fun h => hne (List.length_eq_zero.mp h)
  constructor
  · norm_num [SECTORS_PER_PAGE, pyDivInt, PyFloat.toRat, BYTES_PER_PAGE, BYTES_PER_SECTOR]
  · have hs : 0 ≤ (ds.map (·.readahead_sectors)).sum := by
      refine List.sum_nonneg ?_
      intro x hx
      obtain ⟨d, hd, rfl⟩ := List.mem_map.mp hx
      exact hnn d hd
    simp only [raid_stripe_cache_pages, if_neg hlen]
    exact congrArg Except.ok (stripe_pages_eval _ _ hs hlen)

/-- Witness for C4 at the spec's example: four devices with readahead 256
sectors each give 256 / 8 = 32 stripe cache pages. -/
theorem raid_stripe_cache_pages_witness :
    exampleDevices ≠ [] ∧ (∀ d ∈ exampleDevices, 0 ≤ d.readahead_sectors) ∧
    (SECTORS_PER_PAGE.toRat = 8 ∧
      raid_stripe_cache_pages exampleDevices =
        .ok ⌊((((exampleDevices.map (·.readahead_sectors)).sum : Int) : ℚ) /
              (exampleDevices.length : ℚ)) / 8⌋) ∧
    raid_stripe_cache_pages exampleDevices = .ok 32 :=
  ⟨by decide, by decide,
    raid_stripe_cache_pages_spec exampleDevices (by decide) (by decide), rfl⟩

/-- C5: with every device yielding a measured queue depth through the
probe, disk_ncq_depth returns the minimum of the measured depths. -/
theorem disk_ncq_depth_spec (probe : String → Option Int) (ds : List DiskDevice)
    (depths : List Int) (hprobe : ds.map (fun d => probe d.path) = depths.map some)
    (hne : depths ≠ []) :
    ∃ m, disk_ncq_depth probe ds = .ok m ∧ m ∈ depths ∧ ∀ x ∈ depths, m ≤ x := by
  have hfm : ds.filterMap (fun d => probe d.path) = depths :=
    filterMap_eq_of_map_some _ ds depths hprobe
  cases depths with
  | nil => exact absurd rfl hne
  | cons x xs =>
    refine ⟨xs.foldl min x, ?_, foldl_min_mem xs x, fun y hy => foldl_min_le xs x y hy⟩
    simp [disk_ncq_depth, hfm, List.min?]

/-- Witness for C5 at the spec's example: measured depths 32, 31, 32, 32
give minimum 31. -/
theorem disk_ncq_depth_witness :
    exampleDevices.map (fun d => exampleDepthProbe d.path) =
      ([32, 31, 32, 32] : List Int).map some ∧
    ([32, 31, 32, 32] : List Int) ≠ [] ∧
    (∃ m, disk_ncq_depth exampleDepthProbe exampleDevices = .ok m ∧
      m ∈ ([32, 31, 32, 32] : List Int) ∧ ∀ x ∈ ([32, 31, 32, 32] : List Int), m ≤ x) ∧
    disk_ncq_depth exampleDepthProbe exampleDevices = .ok 31 :=
  ⟨rfl, by decide, disk_ncq_depth_spec _ _ _ rfl (by decide), rfl⟩

/-- C8: on an empty device list the average-based raid_stripe_cache_pages
fails with ZeroDivisionError (division by len) and the minimum-based
disk_ncq_depth fails with ValueError (min of an empty sequence); neither
silently returns a value. -/
theorem empty_devices_error (probe : String → Option Int) :
    raid_stripe_cache_pages [] = .error .zeroDivision ∧
    disk_ncq_depth probe [] = .error .valueError :=
  ⟨rfl, rfl⟩

/-- C9 counterexample: disk_ncq_depth performs its probe internally (the
hdparm subprocess), so its result is not a function of the device topology
alone: the same device list yields different outputs under different probe
environments. Measured attributes are not plain numeric parameters of the
deriver. -/
theorem disk_ncq_depth_probe_dependent :
    disk_ncq_depth (fun _ => some 31) [⟨"/dev/sda", 256⟩] = .ok 31 ∧
    disk_ncq_depth (fun _ => some 32) [⟨"/dev/sda", 256⟩] = .ok 32 ∧
    (31 : Int) ≠ 32 :=
  ⟨rfl, rfl, by decide⟩

/-- C9 (amended): every deriver is a deterministic, mutation-free function
of the topology together with the probe-measured values: two probe
environments that report the same values on every device of the list give
identical results for all probing derivers (the arithmetic-only derivers
are plain functions of their arguments already). -/
theorem deriver_deterministic (p₁ p₂ : String → Option Int) (b₁ b₂ : String → Nat)
    (ds : List DiskDevice) (rl : Int)
    (hp : ∀ d ∈ ds, p₁ d.path = p₂ d.path)
    (hb : ∀ d ∈ ds, b₁ d.path = b₂ d.path) :
    disk_ncq_depth p₁ ds = disk_ncq_depth p₂ ds ∧
    fs_block_size_kb b₁ ds = fs_block_size_kb b₂ ds ∧
    fs_stride b₁ ds rl = fs_stride b₂ ds rl ∧
    fs_stripe_width b₁ ds rl = fs_stripe_width b₂ ds rl := by
  have hfm : ds.filterMap (fun d => p₁ d.path) = ds.filterMap (fun d => p₂ d.path) := by
    induction ds with
    | nil => rfl
    | cons d ds ih =>
      simp only [List.filterMap_cons, hp d (List.mem_cons_self _ _)]
      rw [ih (fun x hx => hp x (List.mem_cons.mpr (Or.inr hx)))
          (fun x hx => hb x (List.mem_cons.mpr (Or.inr hx)))]
  have hbm : ds.map (fun d => b₁ d.path) = ds.map (fun d => b₂ d.path) :=
    List.map_congr_left hb
  have h₂ : fs_block_size_kb b₁ ds = fs_block_size_kb b₂ ds := by
    rw [fs_block_size_kb, fs_block_size_kb, hbm]
  refine ⟨?_, h₂, ?_, ?_⟩
  · rw [disk_ncq_depth, disk_ncq_depth, hfm]
  · rw [fs_stride, fs_stride, h₂]
  · rw [fs_stripe_width, fs_stripe_width, fs_stride, fs_stride, h₂]

/-- Witness for C9's amended theorem: agreeing probes on a concrete device
list give equal derivations. -/
theorem deriver_deterministic_witness :
    (∀ d ∈ exampleDevices, exampleDepthProbe d.path = exampleDepthProbe d.path) ∧
    (∀ d ∈ exampleDevices, exampleBlockProbe d.path = exampleBlockProbe d.path) ∧
    (disk_ncq_depth exampleDepthProbe exampleDevices =
      disk_ncq_depth exampleDepthProbe exampleDevices ∧
    fs_block_size_kb exampleBlockProbe exampleDevices =
      fs_block_size_kb exampleBlockProbe exampleDevices ∧
    fs_stride exampleBlockProbe exampleDevices 5 =
      fs_stride exampleBlockProbe exampleDevices 5 ∧
    fs_stripe_width exampleBlockProbe exampleDevices 5 =
      fs_stripe_width exampleBlockProbe exampleDevices 5) :=
  ⟨by decide, by decide,
    deriver_deterministic exampleDepthProbe exampleDepthProbe exampleBlockProbe
      exampleBlockProbe exampleDevices 5 (by decide) (by decide)⟩

/-- Evaluation of fs_stride when the chunk size is numeric and the block
size is positive. -/
theorem fs_stride_eval (bp : String → Nat) (ds : List DiskDevice) (rl : Int)
    (c bs : Int) (hc : raid_chunk_size_kb rl = .ok (some c)) (hcn : 0 ≤ c)
    (hbs : fs_block_size_kb bp ds = .ok bs) (hpos : 0 < bs) :
    fs_stride bp ds rl = .ok ⌊(c : ℚ) / (bs : ℚ)⌋ := by
  rw [fs_stride, hc, hbs]
  simp only [Except.bind, if_neg hpos.ne']
  congr 1
  rw [pyInt_eq_floor _ hcn hpos]
  rfl

/-- Evaluation of fs_stripe_width from its two sub-derivations. -/
theorem fs_stripe_width_eval (bp : String → Nat) (ds : List DiskDevice) (rl : Int)
    (n s : Int) (hn : _num_data_disks ds rl = .ok n)
    (hs : fs_stride bp ds rl = .ok s) :
    fs_stripe_width bp ds rl = .ok (s * n) := by
  rw [fs_stripe_width, hn, hs]
  rfl

/-- C2 counterexample: the claim's stride formula does not cover every
supported raid level and device list. At raid level 1 the chunk size is the
no-chunking sentinel (Python None), so fs_stride raises TypeError instead
of returning any number; and when the probed block sizes make
fs_block_size_kb zero (512-byte blocks), fs_stride raises
ZeroDivisionError. -/
theorem fs_stride_claim_counterexample :
    raid_chunk_size_kb 1 = .ok Option.none ∧
    fs_stride (fun _ => 4096) [⟨"/dev/sda", 256⟩] 1 = .error .typeError ∧
    fs_block_size_kb (fun _ => 512) [⟨"/dev/sda", 256⟩] = .ok 0 ∧
    fs_stride (fun _ => 512) [⟨"/dev/sda", 256⟩] 5 = .error .zeroDivision :=
  ⟨rfl, rfl, rfl, rfl⟩

/-- C2 (amended): for the raid levels with a numeric chunk size (0, 5 and
6), whenever fs_block_size_kb succeeds with a positive value bs, fs_stride
equals floor(raid_chunk_size_kb / bs) and fs_stripe_width equals
fs_stride times num_data_disks; at raid level 1 (sentinel chunk) and at
bs = 0 fs_stride fails instead. -/
theorem fs_geometry_spec (bp : String → Nat) (ds : List DiskDevice) (rl : Int)
    (hrl : rl = 0 ∨ rl = 5 ∨ rl = 6)
    (bs : Int) (hbs : fs_block_size_kb bp ds = .ok bs) (hpos : 0 < bs) :
    ∃ c n : Int, raid_chunk_size_kb rl = .ok (some c) ∧
      _num_data_disks ds rl = .ok n ∧
      fs_stride bp ds rl = .ok ⌊(c : ℚ) / (bs : ℚ)⌋ ∧
      fs_stripe_width bp ds rl = .ok (⌊(c : ℚ) / (bs : ℚ)⌋ * n) := by
  rcases hrl with rfl | rfl | rfl
  · exact ⟨512, ds.length, rfl, rfl,
      fs_stride_eval bp ds 0 512 bs rfl (by norm_num) hbs hpos,
      fs_stripe_width_eval bp ds 0 _ _ rfl
        (fs_stride_eval bp ds 0 512 bs rfl (by norm_num) hbs hpos)⟩
  · exact ⟨64, (ds.length : Int) - 1, rfl, rfl,
      fs_stride_eval bp ds 5 64 bs rfl (by norm_num) hbs hpos,
      fs_stripe_width_eval bp ds 5 _ _ rfl
        (fs_stride_eval bp ds 5 64 bs rfl (by norm_num) hbs hpos)⟩
  · exact ⟨64, (ds.length : Int) - 2, rfl, rfl,
      fs_stride_eval bp ds 6 64 bs rfl (by norm_num) hbs hpos,
      fs_stripe_width_eval bp ds 6 _ _ rfl
        (fs_stride_eval bp ds 6 64 bs rfl (by norm_num) hbs hpos)⟩

/-- Witness for C2's amended theorem at the spec example: raid level 5,
64 KB chunks, 4 KB filesystem blocks, four disks: stride 16 and
stripe-width 48. -/
theorem fs_geometry_witness :
    ((5 : Int) = 0 ∨ (5 : Int) = 5 ∨ (5 : Int) = 6) ∧
    fs_block_size_kb exampleBlockProbe exampleDevices = .ok 4 ∧ (0 : Int) < 4 ∧
    (∃ c n : Int, raid_chunk_size_kb 5 = .ok (some c) ∧
      _num_data_disks exampleDevices 5 = .ok n ∧
      fs_stride exampleBlockProbe exampleDevices 5 = .ok ⌊(c : ℚ) / ((4 : Int) : ℚ)⌋ ∧
      fs_stripe_width exampleBlockProbe exampleDevices 5 =
        .ok (⌊(c : ℚ) / ((4 : Int) : ℚ)⌋ * n)) ∧
    fs_stride exampleBlockProbe exampleDevices 5 = .ok 16 ∧
    fs_stripe_width exampleBlockProbe exampleDevices 5 = .ok 48 := by
  have hbs : fs_block_size_kb exampleBlockProbe exampleDevices = .ok 4 := by
    simp only [fs_block_size_kb, exampleBlockProbe, exampleDevices, List.map_cons,
      List.map_nil, List.foldl_cons, List.foldl_nil, _lcm_self]
    rfl
  have hstride : fs_stride exampleBlockProbe exampleDevices 5 = .ok 16 := by
    rw [fs_stride, hbs]
    rfl
  have hwidth : fs_stripe_width exampleBlockProbe exampleDevices 5 = .ok 48 := by
    rw [fs_stripe_width, hstride]
    rfl
  exact ⟨Or.inr (Or.inl rfl), hbs, by decide,
    fs_geometry_spec exampleBlockProbe exampleDevices 5 (Or.inr (Or.inl rfl)) 4 hbs
      (by decide), hstride, hwidth⟩

/-! Association-list lemmas underlying the mapping merge. -/

theorem keys_nil : keys [] = [] := rfl

theorem keys_cons (k : String) (v : Node) (l : List (String × Node)) :
    keys ((k, v) :: l) = k :: keys l := rfl

theorem keys_append (l₁ l₂ : List (String × Node)) :
    keys (l₁ ++ l₂) = keys l₁ ++ keys l₂ :=
  List.map_append _ _ _

theorem lookupFirst_eq_none {k : String} {l : List (String × Node)} :
    lookupFirst k l = none ↔ k ∉ keys l := by
  induction l with
  | nil => simp [lookupFirst, keys_nil]
  | cons kv rest ih =>
    obtain ⟨k', v⟩ := kv
    rw [keys_cons]
    by_cases h : k' = k
    · subst h; simp [lookupFirst]
    · rw [lookupFirst, if_neg h, ih]
      simp only [List.mem_cons, not_or]
      constructor
      · intro hk
        exact ⟨fun e => h e.symm, hk⟩
      · intro hk
        exact hk.2

theorem mem_keys_of_lookupFirst {k : String} {l : List (String × Node)} {v : Node}
    (h : lookupFirst k l = some v) : k ∈ keys l := by
  by_contra hk
  rw [← lookupFirst_eq_none] at hk
  rw [h] at hk
  exact Option.noConfusion hk

theorem lookupFirst_mem {k : String} {l : List (String × Node)} {v : Node}
    (h : lookupFirst k l = some v) : (k, v) ∈ l := by
  induction l with
  | nil => exact Option.noConfusion h
  | cons kv rest ih =>
    obtain ⟨k', v'⟩ := kv
    by_cases hk : k' = k
    · subst hk
      rw [lookupFirst, if_pos rfl] at h
      obtain rfl := Option.some.inj h
      exact List.mem_cons_self _ _
    · rw [lookupFirst, if_neg hk] at h
      exact List.mem_cons.mpr (Or.inr (ih h))

theorem keys_updateFirst (k : String) (v : Node) (l : List (String × Node)) :
    keys (updateFirst k v l) = keys l := by
  induction l with
  | nil => rfl
  | cons kv rest ih =>
    obtain ⟨k', v'⟩ := kv
    by_cases h : k' = k <;> simp [updateFirst, h, keys_cons, ih]

theorem lookupFirst_updateFirst_self {k : String} {l : List (String × Node)}
    (h : k ∈ keys l) (v : Node) :
    lookupFirst k (updateFirst k v l) = some v := by
  induction l with
  | nil => simp [keys_nil] at h
  | cons kv rest ih =>
    obtain ⟨k', v'⟩ := kv
    by_cases hk : k' = k
    · subst hk
      simp [updateFirst, lookupFirst]
    · have h' : k ∈ keys rest := by
        rcases List.mem_cons.mp (by simpa [keys_cons] using h) with he | hr
        · exact absurd he.symm hk
        · exact hr
      simp [updateFirst, hk, lookupFirst, ih h']

theorem lookupFirst_updateFirst_ne {k₀ k : String} (h : k₀ ≠ k) (v : Node)
    (l : List (String × Node)) :
    lookupFirst k₀ (updateFirst k v l) = lookupFirst k₀ l := by
  induction l with
  | nil => rfl
  | cons kv rest ih =>
    obtain ⟨k', v'⟩ := kv
    by_cases hk : k' = k
    · subst hk
      have hne : ¬ k' = k₀ := fun e => h e.symm
      rw [updateFirst, if_pos rfl, lookupFirst, if_neg hne, lookupFirst, if_neg hne]
    · simp [updateFirst, hk, lookupFirst, ih]

theorem lookupFirst_append_left {k : String} {l₁ : List (String × Node)} {v : Node}
    (h : lookupFirst k l₁ = some v) (l₂ : List (String × Node)) :
    lookupFirst k (l₁ ++ l₂) = some v := by
  induction l₁ with
  | nil => exact Option.noConfusion h
  | cons kv rest ih =>
    obtain ⟨k', v'⟩ := kv
    by_cases hk : k' = k
    · subst hk
      simp only [lookupFirst, if_pos rfl] at h ⊢
      exact h
    · rw [lookupFirst, if_neg hk] at h
      simpa [lookupFirst, hk] using ih h

theorem lookupFirst_append_right {k : String} {l₁ : List (String × Node)}
    (h : lookupFirst k l₁ = none) (l₂ : List (String × Node)) :
    lookupFirst k (l₁ ++ l₂) = lookupFirst k l₂ := by
  induction l₁ with
  | nil => rfl
  | cons kv rest ih =>
    obtain ⟨k', v'⟩ := kv
    by_cases hk : k' = k
    · rw [lookupFirst, if_pos hk] at h
      exact Option.noConfusion h
    · rw [lookupFirst, if_neg hk] at h
      simpa [lookupFirst, hk] using ih h

theorem lookupFirst_append_single_ne {k₀ k : String} (h : k₀ ≠ k) (v : Node)
    (l : List (String × Node)) :
    lookupFirst k₀ (l ++ [(k, v)]) = lookupFirst k₀ l := by
  cases hl : lookupFirst k₀ l with
  | some w => exact lookupFirst_append_left hl _
  | none =>
    have hne : ¬ k = k₀ := fun e => h e.symm
    rw [lookupFirst_append_right hl]
    simp [lookupFirst, hne]

theorem lookupFirst_append_single_self {k : String} {l : List (String × Node)}
    (h : lookupFirst k l = none) (v : Node) :
    lookupFirst k (l ++ [(k, v)]) = some v := by
  rw [lookupFirst_append_right h]
  simp [lookupFirst]

/-! Unfolding equations of the merge (definitional, as the recursion is
structural). -/

theorem merge_omap_omap (l r : List (String × Node)) :
    merge (.omap l) (.omap r) = (_merge_dict_items l r).map Node.omap := rfl

theorem mdi_nil (res : List (String × Node)) :
    _merge_dict_items res [] = .ok res := rfl

theorem mdi_cons (res : List (String × Node)) (k : String) (v : Node)
    (rest : List (String × Node)) :
    _merge_dict_items res ((k, v) :: rest) =
      match lookupFirst k res with
      | some old =>
        (merge old v).bind fun m => _merge_dict_items (updateFirst k m res) rest
      | none => _merge_dict_items (res ++ [(k, v)]) rest := rfl

theorem mdi_cons_found {res : List (String × Node)} {k : String} {old : Node}
    (hl : lookupFirst k res = some old) (v : Node) (rest : List (String × Node)) :
    _merge_dict_items res ((k, v) :: rest) =
      (merge old v).bind fun m => _merge_dict_items (updateFirst k m res) rest := by
  rw [mdi_cons, hl]

theorem mdi_cons_new {res : List (String × Node)} {k : String}
    (hl : lookupFirst k res = none) (v : Node) (rest : List (String × Node)) :
    _merge_dict_items res ((k, v) :: rest) =
      _merge_dict_items (res ++ [(k, v)]) rest := by
  rw [mdi_cons, hl]

/-- Behaviour of the rhs loop of the mapping merge: the result's key order
is the accumulator's keys followed by the fresh rhs keys in rhs order, keys
outside rhs keep the accumulator's binding, and every rhs binding lands in
the result either merged with the accumulator's value or inserted as is. -/
theorem _merge_dict_items_spec (rs : List (String × Node)) :
    ∀ acc res : List (String × Node), (keys rs).Nodup →
      _merge_dict_items acc rs = .ok res →
      (keys res = keys acc ++ (keys rs).filter (fun x => decide (x ∉ keys acc))) ∧
      (∀ k, k ∉ keys rs → lookupFirst k res = lookupFirst k acc) ∧
      (∀ k v, lookupFirst k rs = some v →
        (∀ old, lookupFirst k acc = some old →
          ∃ m, merge old v = .ok m ∧ lookupFirst k res = some m) ∧
        (lookupFirst k acc = none → lookupFirst k res = some v)) := by
  induction rs with
  | nil =>
    intro acc res _ h
    rw [mdi_nil] at h
    obtain rfl : acc = res := by injection h
    exact ⟨by simp [keys_nil], fun k _ => rfl,
      fun k v hkv => Option.noConfusion hkv⟩
  | cons kv rest ih =>
    obtain ⟨k, v⟩ := kv
    intro acc res hnd h
    rw [keys_cons, List.nodup_cons] at hnd
    obtain ⟨hndk, hndr⟩ := hnd
    cases hl : lookupFirst k acc with
    | some old =>
      rw [mdi_cons_found hl] at h
      cases hm : merge old v with
      | error e =>
        rw [hm] at h
        exact Except.noConfusion h
      | ok m =>
        rw [hm] at h
        replace h : _merge_dict_items (updateFirst k m acc) rest = .ok res := h
        obtain ⟨ihkeys, ihout, ihin⟩ := ih (updateFirst k m acc) res hndr h
        have hkmem : k ∈ keys acc := mem_keys_of_lookupFirst hl
        refine ⟨?_, ?_, ?_⟩
        · rw [ihkeys, keys_updateFirst, keys_cons, List.filter_cons]
          simp [hkmem]
        · intro k₀ hk₀
          rw [keys_cons, List.mem_cons, not_or] at hk₀
          rw [ihout k₀ hk₀.2, lookupFirst_updateFirst_ne hk₀.1]
        · intro k₀ v₀ hkv₀
          by_cases hk : k₀ = k
          · subst hk
            rw [lookupFirst, if_pos rfl] at hkv₀
            obtain rfl := Option.some.inj hkv₀
            refine ⟨?_, ?_⟩
            · intro old₀ hold₀
              rw [hl] at hold₀
              obtain rfl := Option.some.inj hold₀
              refine ⟨m, hm, ?_⟩
              rw [ihout k₀ hndk, lookupFirst_updateFirst_self hkmem]
            · intro hnone
              rw [hl] at hnone
              exact Option.noConfusion hnone
          · rw [lookupFirst, if_neg (fun e : k = k₀ => hk e.symm)] at hkv₀
            obtain ⟨hsome, hnone⟩ := ihin k₀ v₀ hkv₀
            refine ⟨?_, ?_⟩
            · intro old₀ hold₀
              exact hsome old₀ (by rw [lookupFirst_updateFirst_ne hk]; exact hold₀)
            · intro hn
              exact hnone (by rw [lookupFirst_updateFirst_ne hk]; exact hn)
    | none =>
      rw [mdi_cons_new hl] at h
      obtain ⟨ihkeys, ihout, ihin⟩ := ih (acc ++ [(k, v)]) res hndr h
      have hknot : k ∉ keys acc := lookupFirst_eq_none.mp hl
      refine ⟨?_, ?_, ?_⟩
      · have hfk : (keys rest).filter (fun x => decide (x ∉ keys (acc ++ [(k, v)]))) =
            (keys rest).filter (fun x => decide (x ∉ keys acc)) := by
          apply List.filter_congr
          intro x hx
          have hxk : x ≠ k := fun e => hndk (e ▸ hx)
          simp [keys_append, keys_cons, keys_nil, hxk]
        rw [ihkeys, hfk, keys_append]
        simp [keys_cons, keys_nil, hknot, List.filter_cons, List.append_assoc]
      · intro k₀ hk₀
        rw [keys_cons, List.mem_cons, not_or] at hk₀
        rw [ihout k₀ hk₀.2, lookupFirst_append_single_ne hk₀.1]
      · intro k₀ v₀ hkv₀
        by_cases hk : k₀ = k
        · subst hk
          rw [lookupFirst, if_pos rfl] at hkv₀
          obtain rfl := Option.some.inj hkv₀
          refine ⟨?_, ?_⟩
          · intro old₀ hold₀
            rw [hl] at hold₀
            exact Option.noConfusion hold₀
          · intro _
            rw [ihout k₀ hndk, lookupFirst_append_single_self hl]
        · rw [lookupFirst, if_neg (fun e : k = k₀ => hk e.symm)] at hkv₀
          obtain ⟨hsome, hnone⟩ := ihin k₀ v₀ hkv₀
          refine ⟨?_, ?_⟩
          · intro old₀ hold₀
            exact hsome old₀ (by rw [lookupFirst_append_single_ne hk]; exact hold₀)
          · intro hn
            exact hnone (by rw [lookupFirst_append_single_ne hk]; exact hn)

/-- The mapping merge keeps keys pairwise distinct. -/
theorem keys_nodup_mdi {L R res : List (String × Node)}
    (hL : (keys L).Nodup) (hR : (keys R).Nodup)
    (h : _merge_dict_items L R = .ok res) : (keys res).Nodup := by
  obtain ⟨hkeys, -, -⟩ := _merge_dict_items_spec R L res hR h
  rw [hkeys]
  refine List.Nodup.append hL (hR.filter _) ?_
  intro x hxL hxF
  have hp := List.of_mem_filter hxF
  rw [decide_eq_true_eq] at hp
  exact hp hxL

/-- Inversion of a successful mapping merge. -/
theorem merge_omap_ok {L R : List (String × Node)} {m : Node}
    (h : merge (.omap L) (.omap R) = .ok m) :
    ∃ res, _merge_dict_items L R = .ok res ∧ m = .omap res := by
  rw [merge_omap_omap] at h
  cases hx : _merge_dict_items L R with
  | error e => rw [hx] at h; exact Except.noConfusion h
  | ok r =>
    rw [hx] at h
    refine ⟨r, rfl, ?_⟩
    injection h with h'
    exact h'.symm

/-- C1: merging two ordered mappings (distinct keys each) yields an ordered
mapping whose keys are lhs's keys in lhs order followed by the rhs-only
keys in rhs order; a key present in both stores the recursive merge of the
two values, a key present only in lhs keeps lhs's value, and a key present
only in rhs takes rhs's value. -/
theorem merge_mapping_spec (L R res : List (String × Node))
    (hL : (keys L).Nodup) (hR : (keys R).Nodup)
    (h : merge (.omap L) (.omap R) = .ok (.omap res)) :
    keys res = keys L ++ (keys R).filter (fun x => decide (x ∉ keys L)) ∧
    (∀ k vl vr, lookupFirst k L = some vl → lookupFirst k R = some vr →
      ∃ m, merge vl vr = .ok m ∧ lookupFirst k res = some m) ∧
    (∀ k vl, lookupFirst k L = some vl → lookupFirst k R = none →
      lookupFirst k res = some vl) ∧
    (∀ k vr, lookupFirst k L = none → lookupFirst k R = some vr →
      lookupFirst k res = some vr) := by
  obtain ⟨res', hmdi, he⟩ := merge_omap_ok h
  rw [show res' = res from (Node.omap.inj he).symm] at hmdi
  obtain ⟨hkeys, hout, hin⟩ := _merge_dict_items_spec R L res hR hmdi
  refine ⟨hkeys, ?_, ?_, ?_⟩
  · intro k vl vr h1 h2
    exact (hin k vr h2).1 vl h1
  · intro k vl h1 h2
    rw [hout k (lookupFirst_eq_none.mp h2), h1]
  · intro k vr h1 h2
    exact (hin k vr h2).2 h1

/-- Witness for C1 on mappings exercising all three key classes: a shared
scalar-free key set with a nested mapping merge, a sequence concatenation,
an lhs-only key and an rhs-only key. -/
theorem merge_mapping_witness :
    (keys exampleLhs).Nodup ∧ (keys exampleRhs).Nodup ∧
    merge (.omap exampleLhs) (.omap exampleRhs) = .ok (.omap exampleMerged) ∧
    (keys exampleMerged =
        keys exampleLhs ++ (keys exampleRhs).filter (fun x => decide (x ∉ keys exampleLhs)) ∧
      (∀ k vl vr, lookupFirst k exampleLhs = some vl →
        lookupFirst k exampleRhs = some vr →
        ∃ m, merge vl vr = .ok m ∧ lookupFirst k exampleMerged = some m) ∧
      (∀ k vl, lookupFirst k exampleLhs = some vl →
        lookupFirst k exampleRhs = none → lookupFirst k exampleMerged = some vl) ∧
      (∀ k vr, lookupFirst k exampleLhs = none →
        lookupFirst k exampleRhs = some vr → lookupFirst k exampleMerged = some vr)) :=
  ⟨by decide, by decide, rfl,
    merge_mapping_spec exampleLhs exampleRhs exampleMerged (by decide) (by decide) rfl⟩

/-! Size bookkeeping for the strong inductions over the tree. -/

theorem sizeOf_snd_lt_of_mem {p : String × Node} {l : List (String × Node)}
    (h : p ∈ l) : sizeOf p.2 < sizeOf l := by
  induction l with
  | nil => exact absurd h (List.not_mem_nil p)
  | cons q rest ih =>
    rcases List.mem_cons.mp h with rfl | h'
    · obtain ⟨a, b⟩ := p
      simp only [List.cons.sizeOf_spec, Prod.mk.sizeOf_spec]
      omega
    · have := ih h'
      simp only [List.cons.sizeOf_spec]
      omega

theorem sizeOf_lookupFirst_lt {k : String} {l : List (String × Node)} {v : Node}
    (h : lookupFirst k l = some v) : sizeOf v < sizeOf (Node.omap l) := by
  have h2 : sizeOf v < sizeOf l := by
    simpa using sizeOf_snd_lt_of_mem (lookupFirst_mem h)
  simp only [Node.omap.sizeOf_spec]
  omega

/-! Well-formedness bookkeeping. -/

theorem WF_omap (l : List (String × Node)) :
    WF (.omap l) = (decide ((keys l).Nodup) && WFfields l) := rfl

theorem WFfields_cons (k : String) (v : Node) (rest : List (String × Node)) :
    WFfields ((k, v) :: rest) = (WF v && WFfields rest) := rfl

theorem nodup_of_WF_omap {l : List (String × Node)} (h : WF (.omap l) = true) :
    (keys l).Nodup := by
  rw [WF_omap, Bool.and_eq_true, decide_eq_true_eq] at h
  exact h.1

theorem WFfields_of_WF_omap {l : List (String × Node)} (h : WF (.omap l) = true) :
    WFfields l = true := by
  rw [WF_omap, Bool.and_eq_true] at h
  exact h.2

theorem WF_of_mem_fields {l : List (String × Node)} {k : String} {v : Node}
    (h : (k, v) ∈ l) (hf : WFfields l = true) : WF v = true := by
  induction l with
  | nil => exact absurd h (List.not_mem_nil _)
  | cons q rest ih =>
    obtain ⟨k', v'⟩ := q
    rw [WFfields_cons, Bool.and_eq_true] at hf
    rcases List.mem_cons.mp h with he | h'
    · obtain rfl := (Prod.mk.inj he).2
      exact hf.1
    · exact ih h' hf.2

theorem WF_of_lookupFirst {l : List (String × Node)} {k : String} {v : Node}
    (hf : WFfields l = true) (h : lookupFirst k l = some v) : WF v = true :=
  WF_of_mem_fields (lookupFirst_mem h) hf

/-! The mergeable predicate characterises merge success (claim C6). -/

theorem mergeableList_cons (l : List (String × Node)) (k : String) (v : Node)
    (rest : List (String × Node)) :
    mergeableList l ((k, v) :: rest) =
      ((match lookupFirst k l with
        | some old => mergeable old v
        | none => true) && mergeableList l rest) := rfl

theorem mergeableList_cons_found {l : List (String × Node)} {k : String} {old : Node}
    (hl : lookupFirst k l = some old) (v : Node) (rest : List (String × Node)) :
    mergeableList l ((k, v) :: rest) = (mergeable old v && mergeableList l rest) := by
  rw [mergeableList_cons, hl]

theorem mergeableList_cons_new {l : List (String × Node)} {k : String}
    (hl : lookupFirst k l = none) (v : Node) (rest : List (String × Node)) :
    mergeableList l ((k, v) :: rest) = mergeableList l rest := by
  rw [mergeableList_cons, hl, Bool.true_and]

theorem isOk_map (r : Except PyError (List (String × Node))) :
    exceptIsOk (r.map Node.omap) = exceptIsOk r := by
  cases r <;> rfl

/-- Success of the rhs loop coincides with mergeableList, as long as the
accumulator agrees with the original lhs on all keys still to be processed
(which holds throughout since rhs's keys are distinct). -/
theorem mdi_isOk (rs : List (String × Node)) :
    ∀ l acc : List (String × Node), (keys rs).Nodup →
      (∀ k, k ∈ keys rs → lookupFirst k acc = lookupFirst k l) →
      (∀ k v, (k, v) ∈ rs → ∀ old : Node, exceptIsOk (merge old v) = mergeable old v) →
      exceptIsOk (_merge_dict_items acc rs) = mergeableList l rs := by
  induction rs with
  | nil => intro l acc _ _ _; rfl
  | cons kv rest ih =>
    obtain ⟨k, v⟩ := kv
    intro l acc hnd hagree hIH
    rw [keys_cons, List.nodup_cons] at hnd
    obtain ⟨hndk, hndr⟩ := hnd
    have hak : lookupFirst k acc = lookupFirst k l :=
      hagree k (by simp [keys_cons])
    cases hl : lookupFirst k l with
    | some old =>
      rw [mergeableList_cons_found hl, mdi_cons_found (hak.trans hl)]
      cases hm : merge old v with
      | error e =>
        have hmf : mergeable old v = false := by
          have h' := hIH k v (List.mem_cons_self _ _) old
          rw [hm] at h'
          exact h'.symm
        rw [hmf]
        simp [exceptIsOk, Except.bind]
      | ok m =>
        have hmt : mergeable old v = true := by
          have h' := hIH k v (List.mem_cons_self _ _) old
          rw [hm] at h'
          exact h'.symm
        rw [hmt, Bool.true_and]
        show exceptIsOk (_merge_dict_items (updateFirst k m acc) rest) = mergeableList l rest
        apply ih l _ hndr
        · intro k₀ hk₀
          have hk₀k : k₀ ≠ k := fun e => hndk (e ▸ hk₀)
          rw [lookupFirst_updateFirst_ne hk₀k]
          exact hagree k₀ (by simp [keys_cons, hk₀])
        · intro k₀ v₀ h₀ old₀
          exact hIH k₀ v₀ (List.mem_cons.mpr (Or.inr h₀)) old₀
    | none =>
      rw [mergeableList_cons_new hl, mdi_cons_new (hak.trans hl)]
      apply ih l _ hndr
      · intro k₀ hk₀
        have hk₀k : k₀ ≠ k := fun e => hndk (e ▸ hk₀)
        rw [lookupFirst_append_single_ne hk₀k]
        exact hagree k₀ (by simp [keys_cons, hk₀])
      · intro k₀ v₀ h₀ old₀
        exact hIH k₀ v₀ (List.mem_cons.mpr (Or.inr h₀)) old₀

theorem merge_isOk_aux (n : Nat) : ∀ b a : Node, sizeOf b ≤ n → WF b = true →
    exceptIsOk (merge a b) = mergeable a b := by
  induction n using Nat.strong_induction_on with
  | _ n ihn =>
    intro b a hsz hwf
    cases a with
    | omap la =>
      cases b with
      | omap lb =>
        show exceptIsOk ((_merge_dict_items la lb).map Node.omap) = mergeableList la lb
        rw [isOk_map]
        refine mdi_isOk lb la la (nodup_of_WF_omap hwf) (fun _ _ => rfl) ?_
        intro k v hmem old
        have hv : sizeOf v < sizeOf (Node.omap lb) := by
          have h2 : sizeOf v < sizeOf lb := by
            simpa using sizeOf_snd_lt_of_mem hmem
          simp only [Node.omap.sizeOf_spec]
          omega
        exact ihn (sizeOf v) (lt_of_lt_of_le hv hsz) v old (le_refl _)
          (WF_of_mem_fields hmem (WFfields_of_WF_omap hwf))
      | list xs => rfl
      | str s => rfl
      | int i => rfl
      | bool x => rfl
      | null => rfl
    | list xs => cases b <;> rfl
    | str s => cases b <;> rfl
    | int i => cases b <;> rfl
    | bool x => cases b <;> rfl
    | null => cases b <;> rfl

/-- C6 counterexample: an int and a string are both scalars, so they agree
in shape-class, yet merge raises InconsistentTypeError because their
concrete runtime types differ. -/
theorem merge_shape_class_counterexample :
    isScalar (.int 1) = true ∧ isScalar (.str "a") = true ∧
    merge (.int 1) (.str "a") = .error .inconsistentType :=
  ⟨rfl, rfl, rfl⟩

/-- C6 (amended): merge raises InconsistentTypeError exactly when the two
trees disagree in concrete runtime type at some position the recursion
reaches (not merely in shape-class: two scalars of different types also
raise); the failure propagates from any depth, so the whole merge returns
an error with no partial result, and same-type trees at every reached
position merge without raising. -/
theorem merge_raises_iff (a b : Node) (hb : WF b = true) :
    exceptIsOk (merge a b) = mergeable a b :=
  merge_isOk_aux (sizeOf b) b a (le_refl _) hb

/-- Witness for C6's amended theorem: a nested scalar type mismatch (int
versus string under the shared key) makes the whole merge fail. -/
theorem merge_raises_iff_witness :
    WF mismatchRhs = true ∧
    exceptIsOk (merge mismatchLhs mismatchRhs) = mergeable mismatchLhs mismatchRhs ∧
    merge mismatchLhs mismatchRhs = .error .inconsistentType ∧
    mergeable mismatchLhs mismatchRhs = false :=
  ⟨by decide, merge_raises_iff mismatchLhs mismatchRhs (by decide), rfl, rfl⟩

/-- C7: the N-document merge of Merge.do left-folds the pairwise merge from
an empty mapping, so for three documents it is merge(merge(merge(empty, A),
B), C); but the merge_r helper, as written, raises TypeError on every call
because functools.reduce rejects its keyword argument. -/
theorem mergeMany_fold_and_merge_r :
    (∀ a b c : Node, mergeMany [a, b, c] =
      (merge (Node.omap []) a).bind fun x => (merge x b).bind fun y => merge y c) ∧
    (∀ (lhs : Node) (rhs : List Node), merge_r lhs rhs = .error .typeError) := by
  constructor
  · intro a b c
    simp only [mergeMany, List.foldlM_cons, List.foldlM_nil]
    cases merge (Node.omap []) a with
    | error e => rfl
    | ok x =>
      show (merge x b).bind _ = (merge x b).bind _
      cases merge x b with
      | error e => rfl
      | ok y =>
        show (merge y c).bind _ = merge y c
        cases merge y c <;> rfl
  · intro lhs rhs
    rfl

/-! Inversion of a successful merge by the left operand's shape. -/

theorem merge_str_ok {s : String} {y z : Node} (h : merge (.str s) y = .ok z) :
    ∃ t, y = .str t ∧ z = .str t := by
  cases y with
  | str t => exact ⟨t, rfl, (Except.ok.inj h).symm⟩
  | omap l => exact Except.noConfusion h
  | list l => exact Except.noConfusion h
  | int i => exact Except.noConfusion h
  | bool b => exact Except.noConfusion h
  | null => exact Except.noConfusion h

theorem merge_int_ok {i : Int} {y z : Node} (h : merge (.int i) y = .ok z) :
    ∃ t, y = .int t ∧ z = .int t := by
  cases y with
  | int t => exact ⟨t, rfl, (Except.ok.inj h).symm⟩
  | omap l => exact Except.noConfusion h
  | list l => exact Except.noConfusion h
  | str s => exact Except.noConfusion h
  | bool b => exact Except.noConfusion h
  | null => exact Except.noConfusion h

theorem merge_bool_ok {x : Bool} {y z : Node} (h : merge (.bool x) y = .ok z) :
    ∃ t, y = .bool t ∧ z = .bool t := by
  cases y with
  | bool t => exact ⟨t, rfl, (Except.ok.inj h).symm⟩
  | omap l => exact Except.noConfusion h
  | list l => exact Except.noConfusion h
  | str s => exact Except.noConfusion h
  | int i => exact Except.noConfusion h
  | null => exact Except.noConfusion h

theorem merge_null_ok {y z : Node} (h : merge .null y = .ok z) :
    y = .null ∧ z = .null := by
  cases y with
  | null => exact ⟨rfl, (Except.ok.inj h).symm⟩
  | omap l => exact Except.noConfusion h
  | list l => exact Except.noConfusion h
  | str s => exact Except.noConfusion h
  | int i => exact Except.noConfusion h
  | bool b => exact Except.noConfusion h

theorem merge_list_ok {xs : List Node} {y z : Node} (h : merge (.list xs) y = .ok z) :
    ∃ ys, y = .list ys ∧ z = .list (xs ++ ys) := by
  cases y with
  | list ys => exact ⟨ys, rfl, (Except.ok.inj h).symm⟩
  | omap l => exact Except.noConfusion h
  | str s => exact Except.noConfusion h
  | int i => exact Except.noConfusion h
  | bool b => exact Except.noConfusion h
  | null => exact Except.noConfusion h

theorem merge_omap_ok' {l : List (String × Node)} {y z : Node}
    (h : merge (.omap l) y = .ok z) :
    ∃ rmap res, y = .omap rmap ∧ _merge_dict_items l rmap = .ok res ∧ z = .omap res := by
  cases y with
  | omap rmap =>
    obtain ⟨res, hm, hz⟩ := merge_omap_ok h
    exact ⟨rmap, res, rfl, hm, hz⟩
  | list ys => exact Except.noConfusion h
  | str s => exact Except.noConfusion h
  | int i => exact Except.noConfusion h
  | bool b => exact Except.noConfusion h
  | null => exact Except.noConfusion h

/-- Association lists with the same key sequence, pairwise-distinct keys
and identical lookups are equal. -/
theorem alist_ext : ∀ l₁ l₂ : List (String × Node), keys l₁ = keys l₂ →
    (keys l₁).Nodup → (∀ k, lookupFirst k l₁ = lookupFirst k l₂) → l₁ = l₂ := by
  intro l₁
  induction l₁ with
  | nil =>
    intro l₂ hk _ _
    cases l₂ with
    | nil => rfl
    | cons q t => simp [keys] at hk
  | cons p t ih =>
    obtain ⟨k, v⟩ := p
    intro l₂ hk hnd hlook
    cases l₂ with
    | nil => simp [keys] at hk
    | cons q t₂ =>
      obtain ⟨k₂, v₂⟩ := q
      rw [keys_cons, keys_cons] at hk
      obtain ⟨hkk, hkt⟩ := List.cons.inj hk
      subst hkk
      have hv : v = v₂ := by
        have h := hlook k
        rw [lookupFirst, if_pos rfl, lookupFirst, if_pos rfl] at h
        exact Option.some.inj h
      subst hv
      rw [keys_cons, List.nodup_cons] at hnd
      obtain ⟨hknotin, hndt⟩ := hnd
      have ht : t = t₂ := by
        apply ih t₂ hkt hndt
        intro k₀
        by_cases hk₀ : k₀ = k
        · subst hk₀
          rw [lookupFirst_eq_none.mpr hknotin, lookupFirst_eq_none.mpr (hkt ▸ hknotin)]
        · have h := hlook k₀
          rw [lookupFirst, if_neg (fun e : k = k₀ => hk₀ e.symm),
            lookupFirst, if_neg (fun e : k = k₀ => hk₀ e.symm)] at h
          exact h
      rw [ht]

/-- Keys of a merged mapping are the union of the operands' keys. -/
theorem mem_keys_mdi {L R res : List (String × Node)} (hR : (keys R).Nodup)
    (h : _merge_dict_items L R = .ok res) :
    ∀ x, x ∈ keys res ↔ (x ∈ keys L ∨ x ∈ keys R) := by
  obtain ⟨hkeys, -, -⟩ := _merge_dict_items_spec R L res hR h
  intro x
  rw [hkeys, List.mem_append, List.mem_filter]
  constructor
  · rintro (hx | ⟨hx, -⟩)
    · exact Or.inl hx
    · exact Or.inr hx
  · rintro (hx | hx)
    · exact Or.inl hx
    · by_cases hL : x ∈ keys L
      · exact Or.inl hL
      · exact Or.inr ⟨hx, by simp [hL]⟩

/-- Strong-induction core of merge associativity: on well-formed trees,
whenever both groupings succeed they agree. -/
theorem merge_assoc_aux (n : Nat) : ∀ b c a ab abc bc r : Node,
    sizeOf b + sizeOf c ≤ n → WF a = true → WF b = true → WF c = true →
    merge a b = .ok ab → merge ab c = .ok abc →
    merge b c = .ok bc → merge a bc = .ok r → abc = r := by
  induction n using Nat.strong_induction_on with
  | _ n ihn =>
    intro b c a ab abc bc r hsz hwa hwb hwc h1 h2 h3 h4
    cases a with
    | str sa =>
      obtain ⟨sb, rfl, rfl⟩ := merge_str_ok h1
      obtain ⟨sc, rfl, rfl⟩ := merge_str_ok h2
      obtain ⟨t, ht, rfl⟩ := merge_str_ok h3
      obtain ⟨t', ht', rfl⟩ := merge_str_ok h4
      exact ht.trans ht'
    | int ia =>
      obtain ⟨ib, rfl, rfl⟩ := merge_int_ok h1
      obtain ⟨ic, rfl, rfl⟩ := merge_int_ok h2
      obtain ⟨t, ht, rfl⟩ := merge_int_ok h3
      obtain ⟨t', ht', rfl⟩ := merge_int_ok h4
      exact ht.trans ht'
    | bool xa =>
      obtain ⟨xb, rfl, rfl⟩ := merge_bool_ok h1
      obtain ⟨xc, rfl, rfl⟩ := merge_bool_ok h2
      obtain ⟨t, ht, rfl⟩ := merge_bool_ok h3
      obtain ⟨t', ht', rfl⟩ := merge_bool_ok h4
      exact ht.trans ht'
    | null =>
      obtain ⟨rfl, rfl⟩ := merge_null_ok h1
      obtain ⟨rfl, rfl⟩ := merge_null_ok h2
      obtain ⟨-, rfl⟩ := merge_null_ok h3
      obtain ⟨-, rfl⟩ := merge_null_ok h4
      rfl
    | list xa =>
      obtain ⟨xb, rfl, rfl⟩ := merge_list_ok h1
      obtain ⟨xc, rfl, rfl⟩ := merge_list_ok h2
      obtain ⟨ys, hy, rfl⟩ := merge_list_ok h3
      obtain ⟨yr, hyr, rfl⟩ := merge_list_ok h4
      rw [← Node.list.inj hyr, ← Node.list.inj hy, List.append_assoc]
    | omap la =>
      obtain ⟨lb, lab, rfl, h1m, rfl⟩ := merge_omap_ok' h1
      obtain ⟨lc, labc, rfl, h2m, rfl⟩ := merge_omap_ok' h2
      obtain ⟨lc', lbc, he, h3m, rfl⟩ := merge_omap_ok' h3
      obtain rfl : lc = lc' := Node.omap.inj he
      obtain ⟨lbc', lr, he', h4m, rfl⟩ := merge_omap_ok' h4
      obtain rfl : lbc = lbc' := Node.omap.inj he'
      have nla := nodup_of_WF_omap hwa
      have nlb := nodup_of_WF_omap hwb
      have nlc := nodup_of_WF_omap hwc
      have nlab : (keys lab).Nodup := keys_nodup_mdi nla nlb h1m
      have nlbc : (keys lbc).Nodup := keys_nodup_mdi nlb nlc h3m
      have nlabc : (keys labc).Nodup := keys_nodup_mdi nlab nlc h2m
      obtain ⟨k1, o1, i1⟩ := _merge_dict_items_spec lb la lab nlb h1m
      obtain ⟨k2, o2, i2⟩ := _merge_dict_items_spec lc lab labc nlc h2m
      obtain ⟨k3, o3, i3⟩ := _merge_dict_items_spec lc lb lbc nlc h3m
      obtain ⟨k4, o4, i4⟩ := _merge_dict_items_spec lbc la lr nlbc h4m
      have hmemab := mem_keys_mdi nlb h1m
      have hmembc := mem_keys_mdi nlc h3m
      have hfilters : (keys lc).filter (fun x => decide (x ∉ keys lab)) =
          ((keys lc).filter (fun x => decide (x ∉ keys lb))).filter
            (fun x => decide (x ∉ keys la)) := by
        rw [List.filter_filter]
        apply List.filter_congr
        intro x hx
        have hiff : (x ∉ keys lab) ↔ (x ∉ keys la ∧ x ∉ keys lb) :=
          (not_congr (hmemab x)).trans not_or
        show decide (x ∉ keys lab) = (decide (x ∉ keys la) && decide (x ∉ keys lb))
        simp [hiff]
      have hkeysEq : keys labc = keys lr := by
        rw [k2, hfilters, k1, k4, k3, List.filter_append, List.append_assoc]
      have hlooks : ∀ k, lookupFirst k labc = lookupFirst k lr := by
        intro k
        cases hA : lookupFirst k la with
        | none =>
          cases hB : lookupFirst k lb with
          | none =>
            have hBk : k ∉ keys lb := lookupFirst_eq_none.mp hB
            have hab : lookupFirst k lab = none := (o1 k hBk).trans hA
            cases hC : lookupFirst k lc with
            | none =>
              have hCk : k ∉ keys lc := lookupFirst_eq_none.mp hC
              have hbc : lookupFirst k lbc = none := (o3 k hCk).trans hB
              rw [(o2 k hCk).trans hab, (o4 k (lookupFirst_eq_none.mp hbc)).trans hA]
            | some vc =>
              have habc : lookupFirst k labc = some vc := (i2 k vc hC).2 hab
              have hbc : lookupFirst k lbc = some vc := (i3 k vc hC).2 hB
              have hlr : lookupFirst k lr = some vc := (i4 k vc hbc).2 hA
              rw [habc, hlr]
          | some vb =>
            have hab : lookupFirst k lab = some vb := (i1 k vb hB).2 hA
            cases hC : lookupFirst k lc with
            | none =>
              have hCk : k ∉ keys lc := lookupFirst_eq_none.mp hC
              have habc : lookupFirst k labc = some vb := (o2 k hCk).trans hab
              have hbc : lookupFirst k lbc = some vb := (o3 k hCk).trans hB
              have hlr : lookupFirst k lr = some vb := (i4 k vb hbc).2 hA
              rw [habc, hlr]
            | some vc =>
              obtain ⟨m, hme, habc⟩ := (i2 k vc hC).1 vb hab
              obtain ⟨m', hme', hbc⟩ := (i3 k vc hC).1 vb hB
              obtain rfl : m = m' := by
                rw [hme] at hme'
                exact Except.ok.inj hme'
              have hlr : lookupFirst k lr = some m := (i4 k m hbc).2 hA
              rw [habc, hlr]
        | some va =>
          have hwva : WF va = true := WF_of_lookupFirst (WFfields_of_WF_omap hwa) hA
          cases hB : lookupFirst k lb with
          | none =>
            have hBk : k ∉ keys lb := lookupFirst_eq_none.mp hB
            have hab : lookupFirst k lab = some va := (o1 k hBk).trans hA
            cases hC : lookupFirst k lc with
            | none =>
              have hCk : k ∉ keys lc := lookupFirst_eq_none.mp hC
              have hbc : lookupFirst k lbc = none := (o3 k hCk).trans hB
              rw [(o2 k hCk).trans hab, (o4 k (lookupFirst_eq_none.mp hbc)).trans hA]
            | some vc =>
              obtain ⟨m, hme, habc⟩ := (i2 k vc hC).1 va hab
              have hbc : lookupFirst k lbc = some vc := (i3 k vc hC).2 hB
              obtain ⟨m', hme', hlr⟩ := (i4 k vc hbc).1 va hA
              obtain rfl : m = m' := by
                rw [hme] at hme'
                exact Except.ok.inj hme'
              rw [habc, hlr]
          | some vb =>
            obtain ⟨vab, hvab, hab⟩ := (i1 k vb hB).1 va hA
            cases hC : lookupFirst k lc with
            | none =>
              have hCk : k ∉ keys lc := lookupFirst_eq_none.mp hC
              have habc : lookupFirst k labc = some vab := (o2 k hCk).trans hab
              have hbc : lookupFirst k lbc = some vb := (o3 k hCk).trans hB
              obtain ⟨m', hme', hlr⟩ := (i4 k vb hbc).1 va hA
              obtain rfl : vab = m' := by
                rw [hvab] at hme'
                exact Except.ok.inj hme'
              rw [habc, hlr]
            | some vc =>
              obtain ⟨x, hx, habc⟩ := (i2 k vc hC).1 vab hab
              obtain ⟨vbc, hvbc, hbc⟩ := (i3 k vc hC).1 vb hB
              obtain ⟨y, hy, hlr⟩ := (i4 k vbc hbc).1 va hA
              have hwvb : WF vb = true := WF_of_lookupFirst (WFfields_of_WF_omap hwb) hB
              have hwvc : WF vc = true := WF_of_lookupFirst (WFfields_of_WF_omap hwc) hC
              have hsb : sizeOf vb < sizeOf (Node.omap lb) := sizeOf_lookupFirst_lt hB
              have hsc : sizeOf vc < sizeOf (Node.omap lc) := sizeOf_lookupFirst_lt hC
              obtain rfl : x = y :=
                ihn (sizeOf vb + sizeOf vc) (by omega) vb vc va vab x vbc y (le_refl _)
                  hwva hwvb hwvc hvab hx hvbc hy
              rw [habc, hlr]
      exact congrArg Node.omap (alist_ext labc lr hkeysEq nlabc hlooks)

/-- C10: merge is associative on well-formed configuration trees wherever
both groupings are defined: merge(merge(a, b), c) = merge(a, merge(b, c)). -/
theorem merge_assoc (a b c ab abc bc r : Node)
    (hwa : WF a = true) (hwb : WF b = true) (hwc : WF c = true)
    (h1 : merge a b = .ok ab) (h2 : merge ab c = .ok abc)
    (h3 : merge b c = .ok bc) (h4 : merge a bc = .ok r) : abc = r :=
  merge_assoc_aux (sizeOf b + sizeOf c) b c a ab abc bc r (le_refl _)
    hwa hwb hwc h1 h2 h3 h4

/-- Witness for C10 on three overlapping documents: both groupings produce
the same merged tree. -/
theorem merge_assoc_witness :
    WF assocA = true ∧ WF assocB = true ∧ WF assocC = true ∧
    merge assocA assocB =
      .ok (.omap [("k", .omap [("x", .int 1), ("y", .int 2)]), ("s", .int 1),
        ("t", .list [.int 1])]) ∧
    merge (.omap [("k", .omap [("x", .int 1), ("y", .int 2)]), ("s", .int 1),
        ("t", .list [.int 1])]) assocC =
      .ok (.omap [("k", .omap [("x", .int 9), ("y", .int 2)]), ("s", .int 1),
        ("t", .list [.int 1, .int 2])]) ∧
    merge assocB assocC =
      .ok (.omap [("k", .omap [("y", .int 2), ("x", .int 9)]),
        ("t", .list [.int 1, .int 2])]) ∧
    merge assocA (.omap [("k", .omap [("y", .int 2), ("x", .int 9)]),
        ("t", .list [.int 1, .int 2])]) =
      .ok (.omap [("k", .omap [("x", .int 9), ("y", .int 2)]), ("s", .int 1),
        ("t", .list [.int 1, .int 2])]) ∧
    (Node.omap [("k", .omap [("x", .int 9), ("y", .int 2)]), ("s", .int 1),
        ("t", .list [.int 1, .int 2])]) =
      (Node.omap [("k", .omap [("x", .int 9), ("y", .int 2)]), ("s", .int 1),
        ("t", .list [.int 1, .int 2])]) :=
  ⟨by decide, by decide, by decide, rfl, rfl, rfl, rfl,
    merge_assoc assocA assocB assocC _ _ _ _ (by decide) (by decide) (by decide)
      rfl rfl rfl rfl⟩

end Fileserver
